import Mathlib

/-!
# Verification of the electron-trajectory simulation

Shallow embedding of `src/electron_simulation.py`. The numeric type is `ℚ`
(the source computes in IEEE doubles; the claims under verification concern
the algebraic update rules, iteration counts and termination structure, which
are faithfully captured over the rationals). Division is total with
`x / 0 = 0`, mirroring that the source never raises on division (numpy float
division by zero warns and yields non-finite values rather than throwing).

The Euclidean-norm cutoff test `np.linalg.norm(pos) > cutoff_distance` is
embedded square-free as `exceedsCutoff`: for a rational point `v` and bound
`c`, `sqrt (v.x^2 + v.y^2) > c` holds exactly when `c < 0` or
`c^2 < v.x^2 + v.y^2`; lemma `exceedsCutoff_iff_norm` below proves this
equivalence against `Real.sqrt`.
-/

namespace ElectronSim

/-- A 2D vector, as the source's 2-element numpy arrays. -/
structure Vec2 where
  x : ℚ
  y : ℚ
  deriving DecidableEq, Repr

/-- Integration state: `pos` in meters, `vel` in m/s
(the source's `pos` and `vel` arrays). -/
structure PState where
  pos : Vec2
  vel : Vec2
  deriving DecidableEq, Repr

/-- Elementary charge magnitude `e = 1.602176634e-19` C (source line 24). -/
def e_const : ℚ := 1602176634 / 10 ^ 28

/-- Electron mass `me = 9.10938356e-31` kg (source line 25). -/
def me_const : ℚ := 910938356 / 10 ^ 39

/-- Default time step `dt = 1e-11` s (source line 28). -/
def dt_default : ℚ := 1 / 10 ^ 11

/-- Default maximum step count `steps = 5000` (source line 29). -/
def steps_default : Nat := 5000

/-- Default kinetic energy `Ek_default = 20` eV (source line 30). -/
def Ek_default : ℚ := 20

/-- Default field strength `B_default = 2e-3` T (source line 31). -/
def B_default : ℚ := 2 / 1000

/-- Cutoff distance `cutoff_distance = 20` m (source line 32). -/
def cutoff_distance : ℚ := 20

/-- The xy-projection of `np.cross([vx, vy, 0], [0, 0, Bz])`, i.e.
`(vy*Bz - 0*0, 0*0 - vx*Bz)` (source line 57). -/
def cross2 (v : Vec2) (Bz : ℚ) : Vec2 :=
  ⟨v.y * Bz, -(v.x * Bz)⟩

/-- Lorentz force `F = q * np.cross(vel, [0, 0, Bz])[:2]` (source line 57). -/
def lorentzForce (q : ℚ) (v : Vec2) (Bz : ℚ) : Vec2 :=
  ⟨q * (cross2 v Bz).x, q * (cross2 v Bz).y⟩

/-- One loop body of `simulate_trajectory` up to the trajectory append:
`a = F / m; vel += a * dt; pos += vel * dt` (source lines 57-62).
The position update reads the already-updated velocity, exactly as in the
source (semi-implicit order). -/
def stepState (q m Bz dt : ℚ) (s : PState) : PState :=
  let F := lorentzForce q s.vel Bz
  let a : Vec2 := ⟨F.x / m, F.y / m⟩
  let vel : Vec2 := ⟨s.vel.x + a.x * dt, s.vel.y + a.y * dt⟩
  let pos : Vec2 := ⟨s.pos.x + vel.x * dt, s.pos.y + vel.y * dt⟩
  ⟨pos, vel⟩

/-- Squared Euclidean norm of a point. -/
def normSq (v : Vec2) : ℚ := v.x ^ 2 + v.y ^ 2

/-- The source's termination test `np.linalg.norm(pos) > cutoff_distance`
(source line 69), rendered over ℚ: `sqrt (normSq v) > c` iff `c < 0` or
`c^2 < normSq v`. -/
def exceedsCutoff (v : Vec2) (c : ℚ) : Bool :=
  decide (c < 0) || decide (c ^ 2 < normSq v)

/-- The `for _ in range(steps)` loop of `simulate_trajectory`
(source lines 54-70): each iteration steps the state, appends the new
position scaled by 100 (meters to centimeters) to both coordinate lists,
then breaks if the position's norm exceeds the cutoff. Returns the pair
`(x_traj, y_traj)`. -/
def simLoop (q m Bz dt cutoff : ℚ) : Nat → PState → List ℚ × List ℚ
  | 0, _ => ([], [])
  | n + 1, s =>
    let s1 := stepState q m Bz dt s
    if exceedsCutoff s1.pos cutoff then
      ([s1.pos.x * 100], [s1.pos.y * 100])
    else
      let rest := simLoop q m Bz dt cutoff n s1
      (s1.pos.x * 100 :: rest.1, s1.pos.y * 100 :: rest.2)

/-- Initial state of a run: `pos = [0, 0]`, `vel = [v0, 0]`
(source lines 49-50). -/
def initState (v0 : ℚ) : PState := ⟨⟨0, 0⟩, ⟨v0, 0⟩⟩

/-- `simulate_trajectory(v0, q, m, Bz, steps, dt)` (source lines 34-72).
The cutoff distance is the module-level constant `cutoff_distance`; the
parametric loop `simLoop` is exposed separately so facts about the cutoff
can be stated for an arbitrary bound. -/
def simulate_trajectory (v0 q m Bz : ℚ) (steps : Nat) (dt : ℚ) :
    List ℚ × List ℚ :=
  simLoop q m Bz dt cutoff_distance steps (initState v0)

/-- The state after `k` loop iterations from `s`. -/
def stateAt (q m Bz dt : ℚ) (s : PState) : Nat → PState
  | 0 => s
  | k + 1 => stepState q m Bz dt (stateAt q m Bz dt s k)

/-! ## Supporting lemmas -/

/-- `exceedsCutoff` is exactly the source's Euclidean-norm comparison
`np.linalg.norm(pos) > cutoff`. -/
theorem exceedsCutoff_iff_norm (v : Vec2) (c : ℚ) :
    exceedsCutoff v c = true ↔
      (c : ℝ) < Real.sqrt (((v.x : ℝ)) ^ 2 + ((v.y : ℝ)) ^ 2) := by
  have hcast : ((v.x : ℝ)) ^ 2 + ((v.y : ℝ)) ^ 2 = ((normSq v : ℚ) : ℝ) := by
    unfold normSq; push_cast; ring
  rw [hcast]
  unfold exceedsCutoff
  rcases lt_or_le c 0 with hc | hc
  · have h1 : (c : ℝ) < 0 := by exact_mod_cast hc
    have h2 : (c : ℝ) < Real.sqrt ((normSq v : ℚ) : ℝ) :=
      lt_of_lt_of_le h1 (Real.sqrt_nonneg _)
    simp [hc, h2]
  · have hc' : (0 : ℝ) ≤ (c : ℝ) := by exact_mod_cast hc
    rw [Real.lt_sqrt hc']
    have hnot : ¬ (c < 0) := not_lt.mpr hc
    have hpow : ((c : ℝ)) ^ 2 = (((c ^ 2 : ℚ)) : ℝ) := by push_cast; ring
    rw [hpow]
    simp only [hnot, decide_False, Bool.false_or, decide_eq_true_eq]
    exact_mod_cast Iff.rfl

theorem simLoop_zero (q m Bz dt cutoff : ℚ) (s : PState) :
    simLoop q m Bz dt cutoff 0 s = ([], []) := rfl

theorem simLoop_succ (q m Bz dt cutoff : ℚ) (n : Nat) (s : PState) :
    simLoop q m Bz dt cutoff (n + 1) s =
      (if exceedsCutoff (stepState q m Bz dt s).pos cutoff then
        ([(stepState q m Bz dt s).pos.x * 100],
         [(stepState q m Bz dt s).pos.y * 100])
      else
        ((stepState q m Bz dt s).pos.x * 100 ::
           (simLoop q m Bz dt cutoff n (stepState q m Bz dt s)).1,
         (stepState q m Bz dt s).pos.y * 100 ::
           (simLoop q m Bz dt cutoff n (stepState q m Bz dt s)).2)) := by
  show (let s1 := stepState q m Bz dt s; _) = _
  by_cases h : exceedsCutoff (stepState q m Bz dt s).pos cutoff <;>
    simp [simLoop, h]

/-- The two coordinate lists always have the same length. -/
theorem simLoop_length_eq (q m Bz dt cutoff : ℚ) :
    ∀ (n : Nat) (s : PState),
      (simLoop q m Bz dt cutoff n s).1.length =
        (simLoop q m Bz dt cutoff n s).2.length := by
  intro n
  induction n with
  | zero => intro s; rfl
  | succ k ih =>
    intro s
    rw [simLoop_succ]
    by_cases h : exceedsCutoff (stepState q m Bz dt s).pos cutoff <;>
      simp [h, ih]

/-- The loop executes at most `n` iterations, appending at most `n` points. -/
theorem simLoop_length_le (q m Bz dt cutoff : ℚ) :
    ∀ (n : Nat) (s : PState),
      (simLoop q m Bz dt cutoff n s).1.length ≤ n := by
  intro n
  induction n with
  | zero => intro s; exact Nat.le_refl 0
  | succ k ih =>
    intro s
    rw [simLoop_succ]
    by_cases h : exceedsCutoff (stepState q m Bz dt s).pos cutoff
    · simp [h]
    · simpa [h] using Nat.succ_le_succ (ih (stepState q m Bz dt s))

/-- With nonzero fuel the loop appends at least one point before any
termination test. -/
theorem simLoop_ne_nil (q m Bz dt cutoff : ℚ) (n : Nat) (s : PState) :
    (simLoop q m Bz dt cutoff (n + 1) s).1 ≠ [] ∧
      (simLoop q m Bz dt cutoff (n + 1) s).2 ≠ [] := by
  rw [simLoop_succ]
  by_cases h : exceedsCutoff (stepState q m Bz dt s).pos cutoff <;> simp [h]

theorem stateAt_step (q m Bz dt : ℚ) (s : PState) :
    ∀ k, stateAt q m Bz dt (stepState q m Bz dt s) k =
      stateAt q m Bz dt s (k + 1) := by
  intro k
  induction k with
  | zero => rfl
  | succ j ih => simp [stateAt, ih]

/-- Shape of an iteration whose new position exceeds the cutoff: the loop
appends that point and stops. -/
theorem simLoop_succ_exceed (q m Bz dt cutoff : ℚ) (n : Nat) (s : PState)
    (h : exceedsCutoff (stepState q m Bz dt s).pos cutoff = true) :
    simLoop q m Bz dt cutoff (n + 1) s =
      ([(stepState q m Bz dt s).pos.x * 100],
       [(stepState q m Bz dt s).pos.y * 100]) := by
  rw [simLoop_succ, h]
  simp

/-- Shape of an iteration whose new position stays within the cutoff: the
loop appends that point and continues. -/
theorem simLoop_succ_within (q m Bz dt cutoff : ℚ) (n : Nat) (s : PState)
    (h : exceedsCutoff (stepState q m Bz dt s).pos cutoff = false) :
    simLoop q m Bz dt cutoff (n + 1) s =
      ((stepState q m Bz dt s).pos.x * 100 ::
         (simLoop q m Bz dt cutoff n (stepState q m Bz dt s)).1,
       (stepState q m Bz dt s).pos.y * 100 ::
         (simLoop q m Bz dt cutoff n (stepState q m Bz dt s)).2) := by
  rw [simLoop_succ, h]
  simp

/-- The `i`-th appended x-coordinate is the x-position after `i + 1` steps,
scaled by 100. -/
theorem simLoop_fst_getElem (q m Bz dt cutoff : ℚ) :
    ∀ (n : Nat) (s : PState) (i : Nat),
      i < (simLoop q m Bz dt cutoff n s).1.length →
      (simLoop q m Bz dt cutoff n s).1[i]? =
        some ((stateAt q m Bz dt s (i + 1)).pos.x * 100) := by
  intro n
  induction n with
  | zero => intro s i hi; simp [simLoop_zero] at hi
  | succ k ih =>
    intro s i hi
    rcases Bool.eq_false_or_eq_true
        (exceedsCutoff (stepState q m Bz dt s).pos cutoff) with h | h
    · rw [simLoop_succ_exceed q m Bz dt cutoff k s h] at hi ⊢
      simp only [List.length_singleton] at hi
      have hi0 : i = 0 := by omega
      subst hi0
      simp [stateAt]
    · rw [simLoop_succ_within q m Bz dt cutoff k s h] at hi ⊢
      cases i with
      | zero => simp [stateAt]
      | succ j =>
        simp only [List.length_cons] at hi
        have hj : j < (simLoop q m Bz dt cutoff k
            (stepState q m Bz dt s)).1.length := by omega
        have := ih (stepState q m Bz dt s) j hj
        simpa [stateAt_step] using this

/-- The `i`-th appended y-coordinate is the y-position after `i + 1` steps,
scaled by 100. -/
theorem simLoop_snd_getElem (q m Bz dt cutoff : ℚ) :
    ∀ (n : Nat) (s : PState) (i : Nat),
      i < (simLoop q m Bz dt cutoff n s).2.length →
      (simLoop q m Bz dt cutoff n s).2[i]? =
        some ((stateAt q m Bz dt s (i + 1)).pos.y * 100) := by
  intro n
  induction n with
  | zero => intro s i hi; simp [simLoop_zero] at hi
  | succ k ih =>
    intro s i hi
    rcases Bool.eq_false_or_eq_true
        (exceedsCutoff (stepState q m Bz dt s).pos cutoff) with h | h
    · rw [simLoop_succ_exceed q m Bz dt cutoff k s h] at hi ⊢
      simp only [List.length_singleton] at hi
      have hi0 : i = 0 := by omega
      subst hi0
      simp [stateAt]
    · rw [simLoop_succ_within q m Bz dt cutoff k s h] at hi ⊢
      cases i with
      | zero => simp [stateAt]
      | succ j =>
        simp only [List.length_cons] at hi
        have hj : j < (simLoop q m Bz dt cutoff k
            (stepState q m Bz dt s)).2.length := by omega
        have := ih (stepState q m Bz dt s) j hj
        simpa [stateAt_step] using this

/-- Every appended position except possibly the final one passed the cutoff
test: the loop only continues when the norm did not exceed the bound. -/
theorem simLoop_no_early_exceed (q m Bz dt cutoff : ℚ) :
    ∀ (n : Nat) (s : PState) (i : Nat),
      i + 1 < (simLoop q m Bz dt cutoff n s).1.length →
      exceedsCutoff (stateAt q m Bz dt s (i + 1)).pos cutoff = false := by
  intro n
  induction n with
  | zero => intro s i hi; simp [simLoop_zero] at hi
  | succ k ih =>
    intro s i hi
    rcases Bool.eq_false_or_eq_true
        (exceedsCutoff (stepState q m Bz dt s).pos cutoff) with h | h
    · rw [simLoop_succ_exceed q m Bz dt cutoff k s h] at hi
      simp at hi
    · rw [simLoop_succ_within q m Bz dt cutoff k s h] at hi
      simp only [List.length_cons] at hi
      cases i with
      | zero => simpa [stateAt] using h
      | succ j =>
        have hj : j + 1 < (simLoop q m Bz dt cutoff k
            (stepState q m Bz dt s)).1.length := by omega
        have := ih (stepState q m Bz dt s) j hj
        simpa [stateAt_step] using this
/-- If the loop stopped before exhausting its fuel, the final appended
position did exceed the cutoff. -/
theorem simLoop_exceed_at_last (q m Bz dt cutoff : ℚ) :
    ∀ (n : Nat) (s : PState),
      (simLoop q m Bz dt cutoff n s).1.length < n →
      exceedsCutoff (stateAt q m Bz dt s
        ((simLoop q m Bz dt cutoff n s).1.length)).pos cutoff = true := by
  intro n
  induction n with
  | zero => intro s hlt; omega
  | succ k ih =>
    intro s hlt
    rcases Bool.eq_false_or_eq_true
        (exceedsCutoff (stepState q m Bz dt s).pos cutoff) with h | h
    · rw [simLoop_succ_exceed q m Bz dt cutoff k s h]
      simpa [stateAt] using h
    · rw [simLoop_succ_within q m Bz dt cutoff k s h] at hlt ⊢
      simp only [List.length_cons] at hlt ⊢
      have hk : (simLoop q m Bz dt cutoff k
          (stepState q m Bz dt s)).1.length < k := by omega
      have := ih (stepState q m Bz dt s) hk
      simpa [stateAt_step] using this

/-- The trajectory is strictly shorter than the fuel iff the cutoff test
fired at some step strictly before the last allowed one. -/
theorem simLoop_length_lt_iff (q m Bz dt cutoff : ℚ) (n : Nat) (s : PState) :
    (simLoop q m Bz dt cutoff n s).1.length < n ↔
      ∃ j, j + 1 < n ∧
        exceedsCutoff (stateAt q m Bz dt s (j + 1)).pos cutoff = true := by
  constructor
  · intro hlt
    rcases n with _ | k
    · omega
    · have hne := (simLoop_ne_nil q m Bz dt cutoff k s).1
      have hpos : 0 < (simLoop q m Bz dt cutoff (k + 1) s).1.length :=
        List.length_pos.mpr hne
      refine ⟨(simLoop q m Bz dt cutoff (k + 1) s).1.length - 1, by omega, ?_⟩
      have := simLoop_exceed_at_last q m Bz dt cutoff (k + 1) s hlt
      have hrw : (simLoop q m Bz dt cutoff (k + 1) s).1.length - 1 + 1 =
          (simLoop q m Bz dt cutoff (k + 1) s).1.length := by omega
      rw [hrw]
      exact this
  · rintro ⟨j, hj, hex⟩
    by_contra hge
    have hle := simLoop_length_le q m Bz dt cutoff n s
    have heq : (simLoop q m Bz dt cutoff n s).1.length = n := by omega
    have := simLoop_no_early_exceed q m Bz dt cutoff n s j (by omega)
    rw [this] at hex
    exact Bool.false_ne_true hex

/-- Reflection of a state about the x-axis. -/
def mirror (s : PState) : PState :=
  ⟨⟨s.pos.x, -s.pos.y⟩, ⟨s.vel.x, -s.vel.y⟩⟩

/-- Negating the charge commutes with reflection about the x-axis. -/
theorem stepState_neg_charge (q m Bz dt : ℚ) (s : PState) :
    stepState (-q) m Bz dt (mirror s) = mirror (stepState q m Bz dt s) := by
  simp only [stepState, lorentzForce, cross2, mirror, PState.mk.injEq,
    Vec2.mk.injEq]
  refine ⟨⟨?_, ?_⟩, ?_, ?_⟩ <;> ring

theorem exceedsCutoff_mirror (s : PState) (c : ℚ) :
    exceedsCutoff (mirror s).pos c = exceedsCutoff s.pos c := by
  simp [exceedsCutoff, mirror, normSq, neg_sq]

/-- Running the loop with opposite charge from the mirrored state yields the
same x-list and the negated y-list. -/
theorem simLoop_neg_charge (q m Bz dt cutoff : ℚ) :
    ∀ (n : Nat) (s : PState),
      (simLoop (-q) m Bz dt cutoff n (mirror s)).1 =
        (simLoop q m Bz dt cutoff n s).1 ∧
      (simLoop (-q) m Bz dt cutoff n (mirror s)).2 =
        (simLoop q m Bz dt cutoff n s).2.map (fun y => -y) := by
  intro n
  induction n with
  | zero => intro s; exact ⟨rfl, rfl⟩
  | succ k ih =>
    intro s
    rcases Bool.eq_false_or_eq_true
        (exceedsCutoff (stepState q m Bz dt s).pos cutoff) with h | h
    · have h2 : exceedsCutoff (stepState (-q) m Bz dt (mirror s)).pos
          cutoff = true := by
        rw [stepState_neg_charge, exceedsCutoff_mirror]; exact h
      rw [simLoop_succ_exceed q m Bz dt cutoff k s h,
        simLoop_succ_exceed (-q) m Bz dt cutoff k (mirror s) h2,
        stepState_neg_charge]
      simp [mirror]
    · have h2 : exceedsCutoff (stepState (-q) m Bz dt (mirror s)).pos
          cutoff = false := by
        rw [stepState_neg_charge, exceedsCutoff_mirror]; exact h
      rw [simLoop_succ_within q m Bz dt cutoff k s h,
        simLoop_succ_within (-q) m Bz dt cutoff k (mirror s) h2,
        stepState_neg_charge]
      have ht := ih (stepState q m Bz dt s)
      refine ⟨?_, ?_⟩
      · rw [ht.1]; simp [mirror]
      · rw [List.map_cons, ht.2]; simp [mirror, neg_mul]

/-- With zero charge the y-components of velocity and position stay zero
through a step. -/
theorem stepState_zero_charge (m Bz dt : ℚ) (s : PState)
    (hv : s.vel.y = 0) (hp : s.pos.y = 0) :
    (stepState 0 m Bz dt s).vel.y = 0 ∧ (stepState 0 m Bz dt s).pos.y = 0 := by
  simp [stepState, lorentzForce, cross2, hv, hp]

/-- With zero charge every appended y-coordinate is zero. -/
theorem simLoop_zero_charge (m Bz dt cutoff : ℚ) :
    ∀ (n : Nat) (s : PState), s.vel.y = 0 → s.pos.y = 0 →
      ((simLoop 0 m Bz dt cutoff n s).2.all fun y => decide (y = 0)) = true := by
  intro n
  induction n with
  | zero => intro s hv hp; rfl
  | succ k ih =>
    intro s hv hp
    obtain ⟨hv1, hp1⟩ := stepState_zero_charge m Bz dt s hv hp
    rcases Bool.eq_false_or_eq_true
        (exceedsCutoff (stepState 0 m Bz dt s).pos cutoff) with h | h
    · rw [simLoop_succ_exceed 0 m Bz dt cutoff k s h]
      simp [hp1]
    · rw [simLoop_succ_within 0 m Bz dt cutoff k s h]
      simp only [List.all_cons, Bool.and_eq_true]
      exact ⟨by simp [hp1], ih (stepState 0 m Bz dt s) hv1 hp1⟩

/-! ## Sweep driver (`main`, source lines 95-141) -/

/-- One integrator invocation issued by `main`. The source computes the
initial speed as `v0 = np.sqrt(2 * Ek * e / m)`; a call records the kinetic
energy `Ek` (in eV) together with `v0sq`, the exact argument of that square
root, so the derivation `v0 = sqrt(2*Ek*e/m)` is captured inside ℚ. -/
structure SimCall where
  Ek : ℚ
  v0sq : ℚ
  q : ℚ
  m : ℚ
  Bz : ℚ
  deriving DecidableEq, Repr

/-- Panel 1 (source lines 107-111): field strengths {1, 2, 5} mT,
electron charge and mass, default energy. -/
def fieldSweepCalls : List SimCall :=
  [1 / 1000, 2 / 1000, 5 / 1000].map fun Bz =>
    ⟨Ek_default, 2 * Ek_default * e_const / me_const, -e_const, me_const, Bz⟩

/-- Panel 2 (source lines 116-120): kinetic energies {10, 20, 40} eV,
electron charge and mass, default field. -/
def energySweepCalls : List SimCall :=
  [10, 20, 40].map fun Ek =>
    ⟨Ek, 2 * Ek * e_const / me_const, -e_const, me_const, B_default⟩

/-- Panel 3 (source lines 125-129): masses {1, 2, 4} electron masses,
electron charge, default energy and field. -/
def massSweepCalls : List SimCall :=
  [me_const, 2 * me_const, 4 * me_const].map fun m =>
    ⟨Ek_default, 2 * Ek_default * e_const / m, -e_const, m, B_default⟩

/-- Panel 4 (source lines 134-138): electron then positron, default energy
and field. -/
def chargeSweepCalls : List SimCall :=
  [⟨Ek_default, 2 * Ek_default * e_const / me_const, -e_const, me_const,
      B_default⟩,
   ⟨Ek_default, 2 * Ek_default * e_const / me_const, e_const, me_const,
      B_default⟩]

/-- All integrator invocations of one `main` run, in program order. `main`
passes each returned pair `(x, y)` to exactly one `plot` call on the panel
that requested it, so this list is also the sequence of series the
visualization sink receives. -/
def mainCalls : List SimCall :=
  fieldSweepCalls ++ energySweepCalls ++ massSweepCalls ++ chargeSweepCalls

/-! ## Claims -/

/-- C1: each loop iteration computes the force `(q·vy·Bz, −q·vx·Bz)`,
divides by `m` for the acceleration, adds `a·dt` to the velocity, advances
the position by the just-updated velocity times `dt` (semi-implicit order),
and appends the new position scaled by 100 (meters to centimeters) as the
next output point. Stated for arbitrary `m` (so in particular nonzero `m`). -/
theorem claim_C1_step_semantics (q m Bz dt cutoff : ℚ) (n : Nat)
    (s : PState) :
    (stepState q m Bz dt s).vel.x =
      s.vel.x + q * s.vel.y * Bz / m * dt ∧
    (stepState q m Bz dt s).vel.y =
      s.vel.y + -(q * s.vel.x * Bz) / m * dt ∧
    (stepState q m Bz dt s).pos.x =
      s.pos.x + (stepState q m Bz dt s).vel.x * dt ∧
    (stepState q m Bz dt s).pos.y =
      s.pos.y + (stepState q m Bz dt s).vel.y * dt ∧
    (simLoop q m Bz dt cutoff (n + 1) s).1.head? =
      some ((stepState q m Bz dt s).pos.x * 100) ∧
    (simLoop q m Bz dt cutoff (n + 1) s).2.head? =
      some ((stepState q m Bz dt s).pos.y * 100) := by
  refine ⟨?_, ?_, rfl, rfl, ?_, ?_⟩
  · simp only [stepState, lorentzForce, cross2]; ring
  · simp only [stepState, lorentzForce, cross2]; ring
  · rcases Bool.eq_false_or_eq_true
        (exceedsCutoff (stepState q m Bz dt s).pos cutoff) with h | h
    · rw [simLoop_succ_exceed q m Bz dt cutoff n s h]; rfl
    · rw [simLoop_succ_within q m Bz dt cutoff n s h]; rfl
  · rcases Bool.eq_false_or_eq_true
        (exceedsCutoff (stepState q m Bz dt s).pos cutoff) with h | h
    · rw [simLoop_succ_exceed q m Bz dt cutoff n s h]; rfl
    · rw [simLoop_succ_within q m Bz dt cutoff n s h]; rfl

/-- C2 counterexample: with `dt = -1 ≤ 0` (and every other parameter
well-formed) the integrator does not fail — it runs the loop and returns a
nonempty trajectory, refuting "no trajectory point is produced and no
integration step is executed". The source contains no parameter validation
at all. -/
theorem claim_C2_counterexample :
    (-1 : ℚ) ≤ 0 ∧
      (simulate_trajectory 1 0 1 0 1 (-1)).1 = [-100] ∧
      (simulate_trajectory 1 0 1 0 1 (-1)).1.length ≠ 0 := by
  refine ⟨by norm_num, ?_, ?_⟩ <;>
    norm_num [simulate_trajectory, simLoop, stepState, lorentzForce, cross2,
      initState, exceedsCutoff, normSq, cutoff_distance]

/-- C2 amended: `simulate_trajectory` performs no parameter validation and
raises no error: even with `dt ≤ 0` and `m ≤ 0` (division being total in
the embedding), a call with at least one step still executes the loop and
produces at least one trajectory point. -/
theorem claim_C2_amended (v0 q m Bz dt : ℚ) (n : Nat)
    (_hdt : dt ≤ 0) (_hm : m ≤ 0) (hn : 1 ≤ n) :
    (simulate_trajectory v0 q m Bz n dt).1 ≠ [] ∧
      (simulate_trajectory v0 q m Bz n dt).2 ≠ [] := by
  rcases n with _ | k
  · omega
  · exact simLoop_ne_nil q m Bz dt cutoff_distance k (initState v0)

/-- Witness for `claim_C2_amended` at `v0 = 1`, `q = 0`, `m = -1`,
`Bz = 0`, one step, `dt = -1`. -/
theorem claim_C2_amended_witness :
    ((-1 : ℚ) ≤ 0 ∧ (-1 : ℚ) ≤ 0 ∧ 1 ≤ 1) ∧
      (simulate_trajectory 1 0 (-1) 0 1 (-1)).1 ≠ [] :=
  ⟨⟨by norm_num, by norm_num, le_refl 1⟩,
    (claim_C2_amended 1 0 (-1) 0 (-1) 1 (by norm_num) (by norm_num)
      (le_refl 1)).1⟩

/-- C3: the returned point count is at most `maxSteps`, and it is strictly
less than `maxSteps` exactly when at some step strictly before the
`maxSteps`-th the position's Euclidean norm exceeded the cutoff
(`exceedsCutoff` being the norm comparison, by `exceedsCutoff_iff_norm`). -/
theorem claim_C3_length_characterization (v0 q m Bz dt : ℚ) (n : Nat) :
    (simulate_trajectory v0 q m Bz n dt).1.length ≤ n ∧
    ((simulate_trajectory v0 q m Bz n dt).1.length < n ↔
      ∃ j, j + 1 < n ∧
        exceedsCutoff (stateAt q m Bz dt (initState v0) (j + 1)).pos
          cutoff_distance = true) :=
  ⟨simLoop_length_le q m Bz dt cutoff_distance n (initState v0),
   simLoop_length_lt_iff q m Bz dt cutoff_distance n (initState v0)⟩

/-- C4: the cutoff is inclusive. When the loop stops early, the final
appended point is exactly the out-of-bound position (scaled by 100), that
position's norm exceeds the cutoff, and every earlier appended position's
norm did not exceed it. -/
theorem claim_C4_inclusive_cutoff (v0 q m Bz dt : ℚ) (n : Nat)
    (hL : (simulate_trajectory v0 q m Bz n dt).1.length < n) :
    exceedsCutoff (stateAt q m Bz dt (initState v0)
        ((simulate_trajectory v0 q m Bz n dt).1.length)).pos
      cutoff_distance = true ∧
    (simulate_trajectory v0 q m Bz n dt).1.getLast? =
      some ((stateAt q m Bz dt (initState v0)
        ((simulate_trajectory v0 q m Bz n dt).1.length)).pos.x * 100) ∧
    (simulate_trajectory v0 q m Bz n dt).2.getLast? =
      some ((stateAt q m Bz dt (initState v0)
        ((simulate_trajectory v0 q m Bz n dt).1.length)).pos.y * 100) ∧
    ∀ j, j + 1 < (simulate_trajectory v0 q m Bz n dt).1.length →
      exceedsCutoff (stateAt q m Bz dt (initState v0) (j + 1)).pos
        cutoff_distance = false := by
  simp only [simulate_trajectory] at hL ⊢
  rcases n with _ | k
  · omega
  · have hne := (simLoop_ne_nil q m Bz dt cutoff_distance k (initState v0)).1
    have hpos :
        0 < (simLoop q m Bz dt cutoff_distance (k + 1) (initState v0)).1.length :=
      List.length_pos.mpr hne
    have hlen := simLoop_length_eq q m Bz dt cutoff_distance (k + 1)
      (initState v0)
    have hrw :
        (simLoop q m Bz dt cutoff_distance (k + 1) (initState v0)).1.length
          - 1 + 1 =
        (simLoop q m Bz dt cutoff_distance (k + 1)
          (initState v0)).1.length := by omega
    refine ⟨simLoop_exceed_at_last q m Bz dt cutoff_distance (k + 1)
      (initState v0) hL, ?_, ?_,
      simLoop_no_early_exceed q m Bz dt cutoff_distance (k + 1)
        (initState v0)⟩
    · rw [List.getLast?_eq_getElem?]
      have h1 := simLoop_fst_getElem q m Bz dt cutoff_distance (k + 1)
        (initState v0)
        ((simLoop q m Bz dt cutoff_distance (k + 1)
          (initState v0)).1.length - 1) (by omega)
      rw [hrw] at h1
      exact h1
    · rw [List.getLast?_eq_getElem?, ← hlen]
      have h2 := simLoop_snd_getElem q m Bz dt cutoff_distance (k + 1)
        (initState v0)
        ((simLoop q m Bz dt cutoff_distance (k + 1)
          (initState v0)).1.length - 1) (by omega)
      rw [hrw] at h2
      exact h2

/-- Witness for `claim_C4_inclusive_cutoff`: with `v0 = 30`, `q = 0`,
`m = 1`, `Bz = 0`, `dt = 1` and 3 allowed steps, the first step already
lands at distance 30 > 20, so the run stops after one point, and that
point `(3000, 0)` (centimeters) is the last one returned. -/
theorem claim_C4_witness :
    (simulate_trajectory 30 0 1 0 3 1).1.length < 3 ∧
      (simulate_trajectory 30 0 1 0 3 1).1.getLast? = some 3000 := by
  have h := claim_C4_inclusive_cutoff 30 0 1 0 1 3 (by
    norm_num [simulate_trajectory, simLoop, stepState, lorentzForce, cross2,
      initState, exceedsCutoff, normSq, cutoff_distance])
  refine ⟨by
    norm_num [simulate_trajectory, simLoop, stepState, lorentzForce, cross2,
      initState, exceedsCutoff, normSq, cutoff_distance], ?_⟩
  rw [h.2.1]
  norm_num [simulate_trajectory, simLoop, stepState, lorentzForce, cross2,
    initState, exceedsCutoff, normSq, cutoff_distance, stateAt]

/-- C5: with `q = 0` every returned y-coordinate is zero — the trajectory
is a straight line along the x-axis, and the call is an ordinary valid run
(the integrator has no error path). -/
theorem claim_C5_zero_charge_straight_line (v0 m Bz dt : ℚ) (n : Nat) :
    ((simulate_trajectory v0 0 m Bz n dt).2.all
      fun y => decide (y = 0)) = true :=
  simLoop_zero_charge m Bz dt cutoff_distance n (initState v0) rfl rfl

/-- C6: negating the charge (all else fixed) mirrors the trajectory about
the x-axis: the x-lists coincide and the y-lists are pointwise negations
(hence both runs have the same length). -/
theorem claim_C6_charge_mirror (v0 q m Bz dt : ℚ) (n : Nat) :
    (simulate_trajectory v0 (-q) m Bz n dt).1 =
      (simulate_trajectory v0 q m Bz n dt).1 ∧
    (simulate_trajectory v0 (-q) m Bz n dt).2 =
      (simulate_trajectory v0 q m Bz n dt).2.map (fun y => -y) := by
  have hmi : mirror (initState v0) = initState v0 := by
    simp [initState, mirror]
  have h := simLoop_neg_charge q m Bz dt cutoff_distance n (initState v0)
  rw [hmi] at h
  exact h

/-- C7: the integrator always terminates within `maxSteps` iterations:
for every input — `m = 0` included, division being total in the embedding,
matching that numpy float division never raises — both returned lists have
at most `maxSteps` elements, and the integrator is a total function (no
exception path exists). -/
theorem claim_C7_termination_bound (v0 q m Bz dt : ℚ) (n : Nat) :
    (simulate_trajectory v0 q m Bz n dt).1.length ≤ n ∧
    (simulate_trajectory v0 q m Bz n dt).2.length ≤ n ∧
    (simulate_trajectory v0 q 0 Bz n dt).1.length ≤ n := by
  simp only [simulate_trajectory]
  refine ⟨simLoop_length_le q m Bz dt cutoff_distance n (initState v0), ?_,
    simLoop_length_le q 0 Bz dt cutoff_distance n (initState v0)⟩
  rw [← simLoop_length_eq q m Bz dt cutoff_distance n (initState v0)]
  exact simLoop_length_le q m Bz dt cutoff_distance n (initState v0)

/-- C8 counterexample: one run of `main` performs 11 integrator
invocations (3 field strengths + 3 energies + 3 masses + 2 charge signs),
not twelve as claimed. -/
theorem claim_C8_counterexample :
    mainCalls.length ≠ 12 ∧ mainCalls.length = 11 := by
  refine ⟨?_, rfl⟩
  intro h
  simp [mainCalls, fieldSweepCalls, energySweepCalls, massSweepCalls,
    chargeSweepCalls] at h

/-- C8 amended: one run of `main` performs exactly eleven integrator
invocations — one per entry of the field, energy and mass axes (three
each) plus two for the charge-sign axis — each with initial velocity
derived as `v0 = sqrt(2·Ek·e/m)` (recorded by its square `v0sq`), and each
resulting trajectory is plotted (handed to the sink) exactly once, the
invocation list and the sink's series list being the same list
`mainCalls`. -/
theorem claim_C8_amended :
    mainCalls.length = 11 ∧
    fieldSweepCalls.length = 3 ∧
    energySweepCalls.length = 3 ∧
    massSweepCalls.length = 3 ∧
    chargeSweepCalls.length = 2 ∧
    mainCalls = fieldSweepCalls ++ energySweepCalls ++ massSweepCalls ++
      chargeSweepCalls ∧
    (mainCalls.all fun c => decide (c.v0sq = 2 * c.Ek * e_const / c.m))
      = true := by
  refine ⟨rfl, rfl, rfl, rfl, rfl, rfl, ?_⟩
  simp [mainCalls, fieldSweepCalls, energySweepCalls, massSweepCalls,
    chargeSweepCalls]

/-- C9: the trajectory is empty exactly when `maxSteps = 0`; any positive
step budget yields at least the first appended point in both coordinate
lists. -/
theorem claim_C9_empty_iff_zero_steps (v0 q m Bz dt : ℚ) (n : Nat) :
    ((simulate_trajectory v0 q m Bz n dt).1 = [] ↔ n = 0) ∧
    ((simulate_trajectory v0 q m Bz n dt).2 = [] ↔ n = 0) := by
  rcases n with _ | k
  · exact ⟨by simp [simulate_trajectory, simLoop_zero],
      by simp [simulate_trajectory, simLoop_zero]⟩
  · have h := simLoop_ne_nil q m Bz dt cutoff_distance k (initState v0)
    exact ⟨⟨fun hx => absurd hx h.1, fun hx => by omega⟩,
      ⟨fun hx => absurd hx h.2, fun hx => by omega⟩⟩

/-- C10: the two returned coordinate lists always have equal length (each
iteration appends to both or to neither), and the cutoff comparison is
strict: a position whose norm equals the cutoff exactly does not stop the
loop — that iteration appends its point and continues. -/
theorem claim_C10_invariants (v0 q m Bz dt cutoff : ℚ) (n : Nat)
    (s : PState) (hc : 0 ≤ cutoff)
    (heq : normSq (stepState q m Bz dt s).pos = cutoff ^ 2) :
    ((simulate_trajectory v0 q m Bz n dt).1.length =
      (simulate_trajectory v0 q m Bz n dt).2.length) ∧
    simLoop q m Bz dt cutoff (n + 1) s =
      ((stepState q m Bz dt s).pos.x * 100 ::
         (simLoop q m Bz dt cutoff n (stepState q m Bz dt s)).1,
       (stepState q m Bz dt s).pos.y * 100 ::
         (simLoop q m Bz dt cutoff n (stepState q m Bz dt s)).2) := by
  refine ⟨simLoop_length_eq q m Bz dt cutoff_distance n (initState v0), ?_⟩
  apply simLoop_succ_within
  have h1 : ¬ (cutoff < 0) := not_lt.mpr hc
  have h2 : ¬ (cutoff ^ 2 < normSq (stepState q m Bz dt s).pos) := by
    rw [heq]
    exact lt_irrefl _
  simp [exceedsCutoff, h1, h2]

/-- Witness for `claim_C10_invariants`: with `q = 0`, `m = 1`, `v0 = 5`,
`dt = 1` the first step lands at `(5, 0)`, whose norm equals a cutoff of 5
exactly; the loop appends the point and continues rather than stopping. -/
theorem claim_C10_witness :
    ((0 : ℚ) ≤ 5 ∧
      normSq (stepState 0 1 0 1 (initState 5)).pos = 5 ^ 2) ∧
    (simulate_trajectory 5 0 1 0 1 1).1.length =
      (simulate_trajectory 5 0 1 0 1 1).2.length := by
  have h := claim_C10_invariants 5 0 1 0 1 5 1 (initState 5)
    (by norm_num)
    (by norm_num [normSq, stepState, lorentzForce, cross2, initState])
  exact ⟨⟨by norm_num,
    by norm_num [normSq, stepState, lorentzForce, cross2, initState]⟩, h.1⟩

end ElectronSim
